import Mathlib

/-!
Verification development for the PALS (positron annihilation lifetime
spectroscopy) analysis pipeline: a shallow embedding in Lean 4 of the
forward physics simulation (Makhov implantation profile, diffusion-
annihilation profile), the analytic and numerical S(E) curve models, the
Monte-Carlo uncertainty estimator and the sensitivity-study sweeps, with
theorems settling the specification claims about them.

Numbers are modelled as real numbers; numpy arrays as lists of reals;
Python dicts holding layer data as `PyLayer` records; Python exceptions as
`Except String`; the heap aliasing of layer dicts (needed for the
frame-effect claims) as an explicit store of records addressed by index.
-/

/-- One layer record, mirroring the Python dicts
`{'thickness': _, 'density': _, 'L_diff': _}` used throughout the
repository (`thickness_solver.py`, `sensitivity.py`). -/
structure PyLayer where
  thickness : ℝ
  density : ℝ
  L_diff : ℝ
deriving Inhabited

/-- `np.linspace a b n` : `n` evenly spaced samples from `a` to `b`. -/
noncomputable def linspace (a b : ℝ) (n : ℕ) : List ℝ :=
  (List.range n).map (fun i => a + (b - a) * i / (n - 1))

/-- `np.cumsum` running from an accumulator. -/
noncomputable def cumsumFrom (acc : ℝ) : List ℝ → List ℝ
  | [] => []
  | x :: xs => (acc + x) :: cumsumFrom (acc + x) xs

/-- `np.cumsum`: list of partial sums. -/
noncomputable def cumsum (l : List ℝ) : List ℝ := cumsumFrom 0 l

/-- `np.trapezoid y x`: trapezoidal integral of samples `y` over grid `x`,
summing `(x_{i+1} - x_i) * (y_i + y_{i+1}) / 2` over adjacent pairs. -/
noncomputable def trapezoid : List ℝ → List ℝ → ℝ
  | y0 :: y1 :: ys, x0 :: x1 :: xs =>
      (x1 - x0) * (y0 + y1) / 2 + trapezoid (y1 :: ys) (x1 :: xs)
  | _, _ => 0

/-- The sigmoid blend `a + (b - a) / (1 + exp (-(z - d) / (w/4)))` used for
every graded (smooth-interface) property map in the repository
(`implantation.py` line 32, `annihilation.py` line 26,
`thickness_solver.py` line 79, `get_graded_density`). -/
noncomputable def graded_sigmoid (a b d w z : ℝ) : ℝ :=
  a + (b - a) / (1 + Real.exp (-(z - d) / (w / 4)))

/-- Pointwise value of the sharp (step) layer map: the Python loop
`for l in layers: mask = (z >= curr_z) & (z <= curr_z + l.thickness);
out[mask] = f l; curr_z += l.thickness` evaluated at one grid point `z`,
threading the running interface position `cur` and the value `acc`
written so far (initially 0, from `np.zeros_like`).  Both
`implantation.py` (lines 38-42, `f = density`) and `annihilation.py`
(lines 29-33, `f = L_diff`) run exactly this loop. -/
noncomputable def sharp_layer_value (f : PyLayer → ℝ) :
    List PyLayer → ℝ → ℝ → ℝ → ℝ
  | [], _, acc, _ => acc
  | l :: rest, cur, acc, z =>
      sharp_layer_value f rest (cur + l.thickness)
        (if cur ≤ z ∧ z ≤ cur + l.thickness then f l else acc) z

/-- Depth map of a per-layer property `f` over the grid: the graded
sigmoid between layer 0 and layer 1 when `model == 'graded'` and at least
2 layers are given, else the sharp step assignment.  This transcribes the
map-building blocks of `makhov_profile` (`f = density`) and
`calculate_annihilation_profile` (`f = L_diff`), which are textually the
same construction. -/
noncomputable def field_map (f : PyLayer → ℝ) (z_grid : List ℝ)
    (layers : List PyLayer) (model : String) (w : ℝ) : List ℝ :=
  if model = "graded" ∧ 2 ≤ layers.length then
    z_grid.map (fun z =>
      graded_sigmoid (f (layers.getD 0 default)) (f (layers.getD 1 default))
        (layers.getD 0 default).thickness w z)
  else
    z_grid.map (fun z => sharp_layer_value f layers 0 0 z)

/-- The un-normalized Makhov implantation profile `p_z`, lines 8-65 of
`implantation.py`: density map, cumulative mass depth
`xi = cumsum(densities * dz) * 0.1`, effective energy floor
`max E 0.01`, characteristic scale `xi_0 = A * E^N / 0.886`, Makhov
density `p(xi) = (m xi^(m-1) / xi_0^m) exp(-(xi/xi_0)^m)` and the
Jacobian factor `p_z = p_xi * densities`. -/
noncomputable def makhov_unnorm (z_grid : List ℝ) (energy_kev : ℝ)
    (layers : List PyLayer) (model : String) (w : ℝ) : List ℝ :=
  let N : ℝ := 1.6
  let m : ℝ := 2.0
  let A : ℝ := 4.0
  let densities := field_map PyLayer.density z_grid layers model w
  let dz := z_grid.getD 1 0 - z_grid.getD 0 0
  let xi := (cumsum (densities.map (fun d => d * dz))).map (fun t => t * 0.1)
  let eff_E := max energy_kev 0.01
  let xi_0 := A * eff_E ^ N / 0.886
  let p_xi := xi.map (fun t =>
    m * t ^ (m - 1) / xi_0 ^ m * Real.exp (-(t / xi_0) ^ m))
  List.zipWith (fun a b => a * b) p_xi densities

/-- `makhov_profile` (implantation.py lines 8-74): the un-normalized
profile divided by its trapezoidal integral when that integral is
positive, returned un-normalized otherwise. -/
noncomputable def makhov_profile (z_grid : List ℝ) (energy_kev : ℝ)
    (layers : List PyLayer) (model : String) (w : ℝ) : List ℝ :=
  let p_z := makhov_unnorm z_grid energy_kev layers model w
  let integral := trapezoid p_z z_grid
  if 0 < integral then p_z.map (fun y => y / integral) else p_z

/-- The diagnostic of `makhov_profile`: lines 70-71 print
"Warning: Makhov profile integral is non-positive..." exactly when the
pre-normalization integral is `≤ 0`.  This predicate holds iff the
warning is printed on the given input. -/
noncomputable def makhov_warning (z_grid : List ℝ) (energy_kev : ℝ)
    (layers : List PyLayer) (model : String) (w : ℝ) : Prop :=
  trapezoid (makhov_unnorm z_grid energy_kev layers model w) z_grid ≤ 0

/-- Body of the loop of `energy_to_mean_depth` (implantation.py lines
85-101): mean implantation depth of one beam energy in the simplified
two-layer (oxide over substrate) model. -/
noncomputable def mean_depth (E d_ox rho_ox rho_sub : ℝ) : ℝ :=
  let A : ℝ := 4.0
  let N : ℝ := 1.6
  let mass_capacity := A * E ^ N
  let d_ox_micro := rho_ox * d_ox * 0.1
  if mass_capacity ≤ d_ox_micro then
    mass_capacity / (rho_ox * 0.1)
  else
    d_ox + (mass_capacity - d_ox_micro) / (rho_sub * 0.1)

/-- `energy_to_mean_depth` (implantation.py lines 77-103): maps
`mean_depth` over the list of energies. -/
noncomputable def energy_to_mean_depth (energies : List ℝ)
    (d_ox rho_ox rho_sub : ℝ) : List ℝ :=
  energies.map (fun E => mean_depth E d_ox rho_ox rho_sub)

/-- Forward sweep of the Thomas tridiagonal solver: given the remaining
sub-diagonal `a`, main diagonal `b`, super-diagonal `c` and right-hand
side `d` together with the previous modified coefficients `(cp, dp)`,
produce the list of modified coefficients for the remaining rows. -/
noncomputable def thomasFwd : List ℝ → List ℝ → List ℝ → List ℝ → ℝ → ℝ →
    List (ℝ × ℝ)
  | a :: as, b :: bs, c :: cs, d :: ds, cp, dp =>
      let mden := b - a * cp
      let cp2 := c / mden
      let dp2 := (d - a * dp) / mden
      (cp2, dp2) :: thomasFwd as bs cs ds cp2 dp2
  | _, _, _, _, _, _ => []

/-- Back substitution of the Thomas solver over the modified
coefficients. -/
noncomputable def thomasBack : List (ℝ × ℝ) → List ℝ
  | [] => []
  | (cp, dp) :: rest =>
      match thomasBack rest with
      | [] => [dp]
      | x :: xs => (dp - cp * x) :: x :: xs

/-- Solve the tridiagonal system with sub-diagonal `a` (rows 1..n-1),
main diagonal `b`, super-diagonal `c` (rows 0..n-2) and right-hand side
`d` by the Thomas algorithm.  `annihilation.py` assembles exactly this
sparse matrix (`diags([lower, main_diag, upper], [-1, 0, 1])`) and hands
it to `scipy.sparse.linalg.spsolve`; for a nonsingular tridiagonal matrix
spsolve returns the unique solution, which is what this direct solver
computes. -/
noncomputable def thomas (a b c d : List ℝ) : List ℝ :=
  match b, d with
  | b0 :: bs, d0 :: ds =>
      match c ++ [0] with
      | c0 :: crest =>
          let cp0 := c0 / b0
          let dp0 := d0 / b0
          thomasBack ((cp0, dp0) :: thomasFwd a bs crest ds cp0 dp0)
      | [] => []
  | _, _ => []

/-- The clamped, un-normalized annihilation profile: lines 12-57 of
`annihilation.py`.  Diffusion-length map, per-point coefficient
`factor = L^2 / dz^2`, main diagonal `-2*factor - 1`, off-diagonals
`factor[1:]` (lower) and `factor[:-1]` (upper), solve of the tridiagonal
system against `-p_z`, and the clamp `np.maximum(c_z, 0)`. -/
noncomputable def annihilation_unnorm (z_grid p_z : List ℝ)
    (layers : List PyLayer) (model : String) (w : ℝ) : List ℝ :=
  let dz := z_grid.getD 1 0 - z_grid.getD 0 0
  let L_grid := field_map PyLayer.L_diff z_grid layers model w
  let factor := L_grid.map (fun L => L ^ 2 / dz ^ 2)
  let main_diag := factor.map (fun f => -2 * f - 1)
  let lower := factor.drop 1
  let upper := factor.dropLast
  let c_z := thomas lower main_diag upper (p_z.map (fun p => -p))
  c_z.map (fun x => max x 0)

/-- `calculate_annihilation_profile` (annihilation.py lines 7-61):
normalize the clamped profile by its trapezoidal integral when that
integral is positive, else return it un-normalized. -/
noncomputable def calculate_annihilation_profile (z_grid p_z : List ℝ)
    (layers : List PyLayer) (model : String) (w : ℝ) : List ℝ :=
  let c_z := annihilation_unnorm z_grid p_z layers model w
  let integral := trapezoid c_z z_grid
  if 0 < integral then c_z.map (fun y => y / integral) else c_z

/-- Diagnostics emitted by `calculate_annihilation_profile`: the source
function contains no print, raise, flag or any other diagnostic path
whatsoever (annihilation.py lines 7-61 — compare the warning print in
`makhov_profile`), so the predicate "a diagnostic is signaled on this
input" is False on every input. -/
def annihilation_warning (_z_grid _p_z : List ℝ) (_layers : List PyLayer)
    (_model : String) (_w : ℝ) : Prop := False

/-- A Python runtime value as far as `theoretical_S_curve` manipulates
one: a scalar float, a numpy 1-d array, or a tuple. -/
inductive PyVal where
  | num : ℝ → PyVal
  | arr : List ℝ → PyVal
  | tup : List PyVal → PyVal

/-- `np.atleast_1d` on the values that can reach it here. -/
def np_atleast_1d : PyVal → PyVal
  | PyVal.num x => PyVal.arr [x]
  | PyVal.arr xs => PyVal.arr xs
  | PyVal.tup vs => PyVal.tup vs

/-- Python `**` with a float right operand: defined on floats and numpy
arrays (elementwise), a `TypeError` on tuples. -/
noncomputable def pyPow : PyVal → ℝ → Except String PyVal
  | PyVal.num x, n => Except.ok (PyVal.num (x ^ n))
  | PyVal.arr xs, n => Except.ok (PyVal.arr (xs.map (fun x => x ^ n)))
  | PyVal.tup _, _ =>
      Except.error "TypeError: unsupported operand type for **: tuple"

/-- A Python binary arithmetic operation between floats and numpy arrays,
broadcasting scalars; a `TypeError` when a tuple is involved. -/
noncomputable def pyBin (f : ℝ → ℝ → ℝ) : PyVal → PyVal → Except String PyVal
  | PyVal.num a, PyVal.num b => Except.ok (PyVal.num (f a b))
  | PyVal.num a, PyVal.arr bs => Except.ok (PyVal.arr (bs.map (fun b => f a b)))
  | PyVal.arr as, PyVal.num b => Except.ok (PyVal.arr (as.map (fun a => f a b)))
  | PyVal.arr as, PyVal.arr bs => Except.ok (PyVal.arr (List.zipWith f as bs))
  | _, _ => Except.error "TypeError: unsupported operand type: tuple"

/-- A numpy elementwise function applied to a float or array; a
`TypeError` on a tuple. -/
noncomputable def pyMap (f : ℝ → ℝ) : PyVal → Except String PyVal
  | PyVal.num a => Except.ok (PyVal.num (f a))
  | PyVal.arr as => Except.ok (PyVal.arr (as.map f))
  | PyVal.tup _ => Except.error "TypeError: unsupported operand type: tuple"

/-- `theoretical_S_curve` (thickness_solver.py lines 9-40) transcribed
statement by statement.  Note two properties of the source: line 21 binds
`A, N = 40, 1.6,` (so `A` is 40), and line 25 reads
`E = np.atleast_1d(E),` whose trailing comma rebinds `E` to a 1-tuple, so
the following `E**N` on line 32 raises `TypeError` before any value is
produced. -/
noncomputable def theoretical_S_curve (E : PyVal) (d_ox S_surf : ℝ) :
    Except String PyVal := do
  let RHO_OX : ℝ := 5.24
  let A : ℝ := 40
  let N : ℝ := 1.6
  let S_BULK_STEEL : ℝ := 0.52
  let Et := PyVal.tup [np_atleast_1d E]
  let d_ox_micro := d_ox * 0.1
  let epow ← pyPow Et N
  let aepow ← pyBin (fun a b => a * b) (PyVal.num A) epow
  let z_0 ← pyBin (fun a b => a / b) aepow (PyVal.num (RHO_OX * 0.886))
  let frac_arg ← pyBin (fun a b => a / b) (PyVal.num d_ox_micro) z_0
  let fraction_oxide ← pyMap (fun t => 1 - Real.exp (-(t ^ 2))) frac_arg
  let term1 ← pyBin (fun a b => a * b) fraction_oxide (PyVal.num S_surf)
  let one_minus ← pyMap (fun t => 1 - t) fraction_oxide
  let term2 ← pyBin (fun a b => a * b) one_minus (PyVal.num S_BULK_STEEL)
  let s_pred ← pyBin (fun a b => a + b) term1 term2
  match s_pred with
  | PyVal.arr xs =>
      if 1 < xs.length then Except.ok (PyVal.arr xs)
      else Except.ok (PyVal.num (xs.getD 0 0))
  | v => Except.ok v

/-- `numerical_S_curve` (thickness_solver.py lines 60-108) transcribed
with its control flow intact: the `'graded'` branch assigns `s_map`, but
the following `if model == 'layered': ... else: raise ValueError` is a
separate `if`/`else` (not `elif`), so every model tag other than
`'layered'` — including `'graded'` — falls into that `else` and raises.
Python exceptions are modelled by `Except.error`. -/
noncomputable def numerical_S_curve (energies : List ℝ)
    (d_ox w s_surf s_bulk : ℝ) (model : String) :
    Except String (List ℝ) :=
  let layers : List PyLayer := [⟨d_ox, 5.24, 30⟩, ⟨2000, 8.00, 150⟩]
  let z_grid := linspace 0 2000 1000
  let _s_map_graded :=
    if model = "graded" then
      z_grid.map (fun z =>
        s_surf + (s_bulk - s_surf) / (1 + Real.exp (-(z - d_ox) / (w / 4))))
    else z_grid.map (fun _ => 0)
  if model = "layered" then
    let s_map := z_grid.map (fun z => if z ≤ d_ox then s_surf else s_bulk)
    Except.ok (energies.map (fun E =>
      let p_z := makhov_profile z_grid E layers model w
      let c_z := calculate_annihilation_profile z_grid p_z layers model w
      trapezoid (List.zipWith (fun a b => a * b) c_z s_map) z_grid))
  else
    Except.error ("Unknown model type: " ++ model)

/-- The result dictionary of `monte_carlo_uncertainty`
(sensitivity.py lines 195-202), one field per dict key.  `np.mean` and
`np.std` of an empty array are NaN; NaN outcomes are modelled as `none`
and numeric outcomes as `some`. -/
structure MCResult where
  thickness_mean : Option ℝ
  thickness_std : Option ℝ
  thickness_values : List ℝ
  s_surface_mean : Option ℝ
  s_surface_std : Option ℝ
  s_surface_values : List ℝ

/-- `np.mean`: NaN (`none`) on an empty array, the arithmetic mean
otherwise. -/
noncomputable def npMean : List ℝ → Option ℝ
  | [] => none
  | x :: xs => some ((x :: xs).sum / (x :: xs).length)

/-- `np.std` (population standard deviation): NaN (`none`) on an empty
array. -/
noncomputable def npStd : List ℝ → Option ℝ
  | [] => none
  | x :: xs =>
      let l := x :: xs
      let mu := l.sum / l.length
      some (Real.sqrt ((l.map (fun t => (t - mu) ^ 2)).sum / l.length))

/-- `monte_carlo_uncertainty` (sensitivity.py lines 158-202).  Each of the
`n_iterations` loop iterations draws Gaussian noise and runs
`solve_for_thickness` inside `try/except`; the embedding takes the
per-trial outcomes as input: one entry per iteration, `some (d_fit,
s_fit)` when the fit returned, `none` when it raised (the `except:
continue` path).  Successful pairs are appended in trial order and the
six-key result dict is built from them. -/
noncomputable def monte_carlo_uncertainty
    (trials : List (Option (ℝ × ℝ))) : MCResult :=
  let succ := trials.filterMap id
  let thicknesses := succ.map Prod.fst
  let s_surfaces := succ.map Prod.snd
  { thickness_mean := npMean thicknesses
    thickness_std := npStd thicknesses
    thickness_values := thicknesses
    s_surface_mean := npMean s_surfaces
    s_surface_std := npStd s_surfaces
    s_surface_values := s_surfaces }

/-- The heap of Python layer dicts: a layer record per address.  A Python
list of layer dicts is a list of addresses into this store; `list.copy()`
copies the addresses but not the records, which is what makes the
mutation in `study_layer_thickness` observable to the caller. -/
abbrev Store := List PyLayer

/-- The statement `layers[a]['thickness'] = d`: update the record at
address `a` in place. -/
def setThickness (st : Store) (a : ℕ) (d : ℝ) : Store :=
  st.set a { st.getD a default with thickness := d }

/-- `study_layer_thickness` (sensitivity.py lines 110-155) with the heap
explicit.  Per sweep value: `layers_modified = base_layers.copy()` (same
addresses), `layers_modified[0]['thickness'] = d_ox` (an in-place store
write through the shared first record, an `IndexError` when the list is
empty), then one S-curve over the energies from the mutated stack.  The
returned first component collects the S-curves (the source dict's other
keys just echo the inputs); the second component is the store after the
call. -/
noncomputable def study_layer_thickness (st : Store) (base_layers : List ℕ)
    (energies : List ℝ) : List ℝ → Except String (List (List ℝ) × Store)
  | [] => Except.ok ([], st)
  | d_ox :: rest =>
      match base_layers with
      | [] => Except.error "IndexError: list index out of range"
      | a :: _ =>
          let st1 := setThickness st a d_ox
          let layers := base_layers.map (fun i => st1.getD i default)
          let z := linspace 0 600 300
          let s_curve := energies.map (fun e =>
            let p_z := makhov_profile z e layers "sharp" 10.0
            let c_z := calculate_annihilation_profile z p_z layers "sharp" 10.0
            let s_z := z.map (fun zz => if zz ≤ d_ox then (0.575:ℝ) else 0.52)
            trapezoid (List.zipWith (fun a b => a * b) c_z s_z) z)
          match study_layer_thickness st1 base_layers energies rest with
          | Except.ok (curves, st2) => Except.ok (s_curve :: curves, st2)
          | Except.error e => Except.error e

/-- `study_diffusion_length` (sensitivity.py lines 63-107) with the heap
explicit.  The implantation profile is computed once from the base stack;
each sweep value then builds `layers_modified` out of `layer.copy()`
dict copies with `L_diff` overwritten.  The copies are fresh records never
reachable from `base_layers`, so the store is returned unchanged; the
first component collects the annihilation profiles in sweep order. -/
noncomputable def study_diffusion_length (st : Store) (base_layers : List ℕ)
    (energy : ℝ) (L_values : List ℝ) (z_max : ℝ) : List (List ℝ) × Store :=
  let z := linspace 0 z_max 300
  let layers := base_layers.map (fun i => st.getD i default)
  let p_z := makhov_profile z energy layers "sharp" 10.0
  let profiles := L_values.map (fun L =>
    let layers_modified := layers.map (fun l => { l with L_diff := L })
    calculate_annihilation_profile z p_z layers_modified "sharp" 10.0)
  (profiles, st)

/-- C1: contrary to the claim, `numerical_S_curve` raises for the model
tag 'graded' on every input: the `'graded'` branch is followed by
`if model == 'layered': ... else: raise ValueError(...)` (not `elif`), so
'graded' always reaches the `raise`.  This theorem evaluates the embedded
function: for any energies and parameters the call with model='graded'
returns the ValueError, never an array of S values. -/
theorem numerical_S_curve_graded_raises :
    ∀ (energies : List ℝ) (d_ox w s_surf s_bulk : ℝ),
      numerical_S_curve energies d_ox w s_surf s_bulk "graded" =
        Except.error "Unknown model type: graded" := by
  intro es d w ss sb
  rfl

/-- C2: contrary to the claim, `theoretical_S_curve` returns no value at
all: line 25 `E = np.atleast_1d(E),` rebinds `E` to a 1-tuple (trailing
comma), so `E**N` on line 32 raises TypeError on every call (and the
shadowed constant is `A = 40`, not the claimed `A = 4.0`). -/
theorem theoretical_S_curve_raises :
    ∀ (E : PyVal) (d_ox S_surf : ℝ),
      theoretical_S_curve E d_ox S_surf =
        Except.error "TypeError: unsupported operand type for **: tuple" := by
  intro E d s
  rfl

/-- C7 counterexample: the result of `monte_carlo_uncertainty` cannot
report the count of successful versus failed trials, because it is
identical for a 1-trial batch with no failures and a 2-trial batch with
one failure — the failed-trial count is not recoverable from the returned
dictionary, falsifying the claim's reporting part at this concrete
input. -/
theorem monte_carlo_no_failure_count :
    monte_carlo_uncertainty [some ((20:ℝ), (0.5:ℝ))] =
      monte_carlo_uncertainty [some ((20:ℝ), (0.5:ℝ)), none] := rfl

/-- C7 (amended): a failed trial anywhere in the batch is skipped without
aborting — the result is exactly that of the batch with the failure
removed, and the returned value arrays collect precisely the successful
fits in trial order (so the success count is their length, but no
failed-trial count is reported). -/
theorem monte_carlo_skips_failed_trials :
    ∀ (ts1 ts2 : List (Option (ℝ × ℝ))),
      monte_carlo_uncertainty (ts1 ++ none :: ts2) =
        monte_carlo_uncertainty (ts1 ++ ts2) ∧
      (monte_carlo_uncertainty (ts1 ++ ts2)).thickness_values =
        ((ts1 ++ ts2).filterMap id).map Prod.fst := by
  intro ts1 ts2
  constructor
  · simp [monte_carlo_uncertainty, List.filterMap_append]
  · simp [monte_carlo_uncertainty]

/-- C10: when every trial fails, `monte_carlo_uncertainty` still returns
the result dictionary, with empty value arrays and NaN (modelled `none`)
means and standard deviations. -/
theorem monte_carlo_all_failed :
    ∀ ts : List (Option (ℝ × ℝ)), (∀ t ∈ ts, t = none) →
      monte_carlo_uncertainty ts =
        { thickness_mean := none, thickness_std := none,
          thickness_values := [], s_surface_mean := none,
          s_surface_std := none, s_surface_values := [] } := by
  intro ts h
  have hfm : ts.filterMap id = [] := by
    induction ts with
    | nil => rfl
    | cons t rest ih =>
        have ht : t = none := h t (List.mem_cons_self t rest)
        subst ht
        simpa using ih (fun x hx => h x (List.mem_cons_of_mem _ hx))
  simp [monte_carlo_uncertainty, hfm, npMean, npStd]

/-- Witness for C10 at the concrete all-failing batch `[none, none]`. -/
theorem monte_carlo_all_failed_witness :
    monte_carlo_uncertainty [none, none] =
      { thickness_mean := none, thickness_std := none,
        thickness_values := [], s_surface_mean := none,
        s_surface_std := none, s_surface_values := [] } :=
  monte_carlo_all_failed [none, none] (by
    intro t ht
    rcases List.mem_cons.mp ht with h | h
    · exact h
    · rcases List.mem_cons.mp h with h2 | h2
      · exact h2
      · exact absurd h2 (List.not_mem_nil t))

/-- C5: for a fixed two-layer sharp stack with positive thickness and
densities, the mean implantation depth of `energy_to_mean_depth` is
strictly increasing in the beam energy. -/
theorem energy_to_mean_depth_strict_mono :
    ∀ (E1 E2 d_ox rho_ox rho_sub : ℝ),
      0 < E1 → E1 < E2 → 0 < d_ox → 0 < rho_ox → 0 < rho_sub →
      mean_depth E1 d_ox rho_ox rho_sub < mean_depth E2 d_ox rho_ox rho_sub ∧
      energy_to_mean_depth [E1, E2] d_ox rho_ox rho_sub =
        [mean_depth E1 d_ox rho_ox rho_sub,
         mean_depth E2 d_ox rho_ox rho_sub] := by
  intro E1 E2 d rx rs hE1 h12 hd hrx hrs
  refine ⟨?_, rfl⟩
  have hmc : (4.0:ℝ) * E1 ^ (1.6:ℝ) < 4.0 * E2 ^ (1.6:ℝ) := by
    have := Real.rpow_lt_rpow (le_of_lt hE1) h12 (by norm_num : (0:ℝ) < 1.6)
    linarith
  have hc1 : (0:ℝ) < rx * 0.1 := by positivity
  have hc2 : (0:ℝ) < rs * 0.1 := by positivity
  show (if (4.0:ℝ) * E1 ^ (1.6:ℝ) ≤ rx * d * 0.1 then
          4.0 * E1 ^ (1.6:ℝ) / (rx * 0.1)
        else d + (4.0 * E1 ^ (1.6:ℝ) - rx * d * 0.1) / (rs * 0.1)) <
       (if (4.0:ℝ) * E2 ^ (1.6:ℝ) ≤ rx * d * 0.1 then
          4.0 * E2 ^ (1.6:ℝ) / (rx * 0.1)
        else d + (4.0 * E2 ^ (1.6:ℝ) - rx * d * 0.1) / (rs * 0.1))
  have hthr : rx * d * 0.1 / (rx * 0.1) = d := by
    field_simp
    ring
  split_ifs with h1 h2 h2
  · gcongr
  · have hz1 : (4.0:ℝ) * E1 ^ (1.6:ℝ) / (rx * 0.1) ≤ d := by
      calc (4.0:ℝ) * E1 ^ (1.6:ℝ) / (rx * 0.1)
          ≤ rx * d * 0.1 / (rx * 0.1) := by gcongr
        _ = d := hthr
    have hz2 : (0:ℝ) < (4.0 * E2 ^ (1.6:ℝ) - rx * d * 0.1) / (rs * 0.1) := by
      push_neg at h2
      have : (0:ℝ) < 4.0 * E2 ^ (1.6:ℝ) - rx * d * 0.1 := by linarith
      positivity
    linarith
  · push_neg at h1
    linarith
  · have : (0:ℝ) < 4.0 * E2 ^ (1.6:ℝ) - (4.0:ℝ) * E1 ^ (1.6:ℝ) := by linarith
    gcongr

/-- Witness for C5 at energies 1 and 2 keV on a unit stack. -/
theorem energy_to_mean_depth_strict_mono_witness :
    mean_depth 1 1 1 1 < mean_depth 2 1 1 1 ∧
      energy_to_mean_depth [1, 2] 1 1 1 =
        [mean_depth 1 1 1 1, mean_depth 2 1 1 1] :=
  energy_to_mean_depth_strict_mono 1 2 1 1 1 (by norm_num) (by norm_num)
    (by norm_num) (by norm_num) (by norm_num)

/-- Writing thickness twice at the same address keeps only the last
write. -/
theorem setThickness_setThickness (st : Store) (a : ℕ) (d v : ℝ) :
    setThickness (setThickness st a d) a v = setThickness st a v := by
  unfold setThickness
  rcases Nat.lt_or_ge a st.length with h | h
  · have h1 : (st.set a { st.getD a default with thickness := d }).getD a default
        = { st.getD a default with thickness := d } := by
      simp [List.getD_eq_getElem?_getD, List.getElem?_set_self h]
    rw [h1, List.set_set]
  · rw [List.set_eq_of_length_le h]

/-- C9 counterexample: `study_layer_thickness` mutates the caller's layer
stack.  For the one-layer store `[{thickness 155, density 5.22, L_diff
30}]` with `base_layers = [0]` and sweep value 50, the store after the
call holds thickness 50 at the shared address — not its prior value 155 —
falsifying the claim that every field of every layer record equals its
value before the call. -/
theorem study_layer_thickness_mutates :
    study_layer_thickness [⟨155, 5.22, 30⟩] [0] [] [50] =
      Except.ok ([([] : List ℝ)], [⟨50, 5.22, 30⟩]) ∧ (155:ℝ) ≠ 50 := by
  constructor
  · rfl
  · norm_num

/-- C9 (amended): `study_diffusion_length` leaves the caller's store
untouched (its per-sweep `layer.copy()` records are fresh), while
`study_layer_thickness` — whose `base_layers.copy()` copies only the list
of addresses — writes every sweep thickness through the shared first
record, so it returns with that record's thickness set to the last sweep
value (all other records and fields unchanged, since `setThickness`
touches only address `a`). -/
theorem study_sweeps_frame :
    (∀ (st : Store) (base_layers : List ℕ) (energy : ℝ)
        (L_values : List ℝ) (z_max : ℝ),
      (study_diffusion_length st base_layers energy L_values z_max).2 = st) ∧
    (∀ (st : Store) (a : ℕ) (rest : List ℕ) (energies : List ℝ)
        (d : ℝ) (ds : List ℝ),
      ∃ curves, study_layer_thickness st (a :: rest) energies (d :: ds) =
        Except.ok (curves, setThickness st a (ds.getLastD d))) := by
  constructor
  · intro st bl e Ls zm
    rfl
  · intro st a rest es d ds
    induction ds generalizing st d with
    | nil => exact ⟨_, rfl⟩
    | cons d2 ds ih =>
        obtain ⟨curves, hc⟩ := ih (setThickness st a d) d2
        simp only [study_layer_thickness] at hc ⊢
        simp only [setThickness_setThickness] at hc ⊢
        simp only [hc, List.getLastD_cons]
        exact ⟨_, rfl⟩

/-- Witness for C9's amended statement at a concrete store, address and
sweep. -/
theorem study_sweeps_frame_witness :
    (study_diffusion_length [⟨155, 5.22, 30⟩] [0] 5 [10, 20] 600).2 =
      [⟨155, 5.22, 30⟩] ∧
    ∃ curves, study_layer_thickness [⟨155, 5.22, 30⟩] [0] [] [40, 50] =
      Except.ok (curves, setThickness [⟨155, 5.22, 30⟩] 0
        (List.getLastD [50] 40)) :=
  ⟨study_sweeps_frame.1 [⟨155, 5.22, 30⟩] [0] 5 [10, 20] 600,
   study_sweeps_frame.2 [⟨155, 5.22, 30⟩] 0 [] [] 40 [50]⟩

/-- With an empty layer stack the density map is identically zero, so the
un-normalized Makhov profile integrates to zero: a concrete input with
non-positive pre-normalization integral. -/
lemma makhov_unnorm_empty_layers :
    trapezoid (makhov_unnorm [0, 1] 1 [] "sharp" 10) [0, 1] ≤ 0 := by
  have h : makhov_unnorm [0, 1] 1 [] "sharp" 10 = [0, 0] := by
    simp [makhov_unnorm, field_map, sharp_layer_value, cumsum, cumsumFrom]
  rw [h]
  simp [trapezoid]

/-- With a zero input profile (and empty stack) the solved annihilation
profile is zero, so its integral is non-positive. -/
lemma annihilation_unnorm_zero_p :
    trapezoid (annihilation_unnorm [0, 1] [0, 0] [] "sharp" 10) [0, 1] ≤ 0 := by
  have h : annihilation_unnorm [0, 1] [0, 0] [] "sharp" 10 = [0, 0] := by
    simp [annihilation_unnorm, field_map, sharp_layer_value, thomas,
      thomasFwd, thomasBack]
  rw [h]
  simp [trapezoid]

/-- C6 counterexample: at a concrete input whose pre-normalization
annihilation integral is non-positive, `calculate_annihilation_profile`
does return the un-normalized (clamped) array, but no diagnostic is
signaled — the function has no diagnostic path at all — falsifying the
claim's "a diagnostic is signaled to the caller" for this function. -/
theorem annihilation_nonpositive_no_diagnostic :
    trapezoid (annihilation_unnorm [0, 1] [0, 0] [] "sharp" 10) [0, 1] ≤ 0 ∧
    calculate_annihilation_profile [0, 1] [0, 0] [] "sharp" 10 =
      annihilation_unnorm [0, 1] [0, 0] [] "sharp" 10 ∧
    ¬ annihilation_warning [0, 1] [0, 0] [] "sharp" 10 := by
  refine ⟨annihilation_unnorm_zero_p, ?_, not_false⟩
  simp only [calculate_annihilation_profile]
  rw [if_neg (not_lt.mpr annihilation_unnorm_zero_p)]

/-- C6 (amended): whenever the pre-normalization trapezoidal integral is
non-positive, both functions return the un-normalized array (the clamped
one for the annihilation profile) without dividing; `makhov_profile`
prints its console warning in exactly that case, while
`calculate_annihilation_profile` signals no diagnostic at all. -/
theorem nonpositive_integral_behavior :
    (∀ (z_grid : List ℝ) (E : ℝ) (layers : List PyLayer) (model : String)
        (w : ℝ),
      trapezoid (makhov_unnorm z_grid E layers model w) z_grid ≤ 0 →
      makhov_profile z_grid E layers model w =
        makhov_unnorm z_grid E layers model w ∧
      makhov_warning z_grid E layers model w) ∧
    (∀ (z_grid p_z : List ℝ) (layers : List PyLayer) (model : String)
        (w : ℝ),
      trapezoid (annihilation_unnorm z_grid p_z layers model w) z_grid ≤ 0 →
      calculate_annihilation_profile z_grid p_z layers model w =
        annihilation_unnorm z_grid p_z layers model w ∧
      ¬ annihilation_warning z_grid p_z layers model w) := by
  constructor
  · intro z E layers model w h
    refine ⟨?_, h⟩
    simp only [makhov_profile]
    rw [if_neg (not_lt.mpr h)]
  · intro z p layers model w h
    refine ⟨?_, not_false⟩
    simp only [calculate_annihilation_profile]
    rw [if_neg (not_lt.mpr h)]

/-- Witness for C6's amended statement: the empty-stack Makhov input and
the zero-profile annihilation input both have non-positive
pre-normalization integrals, and the theorem applies to them. -/
theorem nonpositive_integral_behavior_witness :
    (makhov_profile [0, 1] 1 [] "sharp" 10 =
        makhov_unnorm [0, 1] 1 [] "sharp" 10 ∧
      makhov_warning [0, 1] 1 [] "sharp" 10) ∧
    (calculate_annihilation_profile [0, 1] [0, 0] [] "sharp" 10 =
        annihilation_unnorm [0, 1] [0, 0] [] "sharp" 10 ∧
      ¬ annihilation_warning [0, 1] [0, 0] [] "sharp" 10) :=
  ⟨nonpositive_integral_behavior.1 [0, 1] 1 [] "sharp" 10
      makhov_unnorm_empty_layers,
   nonpositive_integral_behavior.2 [0, 1] [0, 0] [] "sharp" 10
      annihilation_unnorm_zero_p⟩

/-- The sigmoid blend of two non-negative endpoints is non-negative. -/
lemma graded_sigmoid_nonneg (a b d w z : ℝ) (ha : 0 ≤ a) (hb : 0 ≤ b) :
    0 ≤ graded_sigmoid a b d w z := by
  have hD : (0:ℝ) < 1 + Real.exp (-(z - d) / (w / 4)) := by positivity
  have hrw : graded_sigmoid a b d w z =
      (a * Real.exp (-(z - d) / (w / 4)) + b) /
        (1 + Real.exp (-(z - d) / (w / 4))) := by
    unfold graded_sigmoid
    field_simp
    ring
  rw [hrw]
  positivity

/-- The step assignment keeps non-negative values when all layer values
and the running accumulator are non-negative. -/
lemma sharp_layer_value_nonneg (f : PyLayer → ℝ) :
    ∀ (layers : List PyLayer) (cur acc z : ℝ),
      (∀ l ∈ layers, 0 ≤ f l) → 0 ≤ acc →
      0 ≤ sharp_layer_value f layers cur acc z := by
  intro layers
  induction layers with
  | nil => intro cur acc z _ hacc; exact hacc
  | cons l rest ih =>
      intro cur acc z hf hacc
      refine ih (cur + l.thickness) _ z
        (fun x hx => hf x (List.mem_cons_of_mem _ hx)) ?_
      by_cases hcase : cur ≤ z ∧ z ≤ cur + l.thickness
      · rw [if_pos hcase]; exact hf l (List.mem_cons_self l rest)
      · rw [if_neg hcase]; exact hacc

/-- Every entry of a field map is non-negative when the layer values
are. -/
lemma field_map_nonneg (f : PyLayer → ℝ) (z_grid : List ℝ)
    (layers : List PyLayer) (model : String) (w : ℝ)
    (hf : ∀ l ∈ layers, 0 ≤ f l) :
    ∀ y ∈ field_map f z_grid layers model w, 0 ≤ y := by
  intro y hy
  unfold field_map at hy
  split at hy
  · rename_i hcond
    obtain ⟨z, _, rfl⟩ := List.mem_map.mp hy
    rcases layers with _ | ⟨l0, layers2⟩
    · simp at hcond
    rcases layers2 with _ | ⟨l1, rest⟩
    · simp at hcond
    refine graded_sigmoid_nonneg _ _ _ _ _ ?_ ?_
    · exact hf l0 (List.mem_cons_self _ _)
    · exact hf l1 (List.mem_cons_of_mem _ (List.mem_cons_self _ _))
  · obtain ⟨z, _, rfl⟩ := List.mem_map.mp hy
    exact sharp_layer_value_nonneg f layers 0 0 z hf le_rfl

/-- Partial sums of non-negative entries from a non-negative start are
non-negative. -/
lemma cumsumFrom_nonneg :
    ∀ (l : List ℝ) (acc : ℝ), (∀ x ∈ l, 0 ≤ x) → 0 ≤ acc →
      ∀ y ∈ cumsumFrom acc l, 0 ≤ y := by
  intro l
  induction l with
  | nil => intro acc _ _ y hy; simp [cumsumFrom] at hy
  | cons x xs ih =>
      intro acc hl hacc y hy
      have hx : 0 ≤ x := hl x (List.mem_cons_self x xs)
      rcases List.mem_cons.mp hy with h | h
      · subst h; linarith
      · exact ih (acc + x) (fun t ht => hl t (List.mem_cons_of_mem _ ht))
          (by linarith) y h

/-- Elementwise products of non-negative lists are non-negative. -/
lemma zipWith_mul_nonneg :
    ∀ (A B : List ℝ), (∀ a ∈ A, 0 ≤ a) → (∀ b ∈ B, 0 ≤ b) →
      ∀ y ∈ List.zipWith (fun a b => a * b) A B, 0 ≤ y := by
  intro A
  induction A with
  | nil => intro B _ _ y hy; simp at hy
  | cons a as ih =>
      intro B hA hB y hy
      cases B with
      | nil => simp at hy
      | cons b bs =>
          rcases List.mem_cons.mp hy with h | h
          · subst h
            exact mul_nonneg (hA a (List.mem_cons_self a as))
              (hB b (List.mem_cons_self b bs))
          · exact ih bs (fun t ht => hA t (List.mem_cons_of_mem _ ht))
              (fun t ht => hB t (List.mem_cons_of_mem _ ht)) y h

/-- Every entry of the un-normalized Makhov profile is non-negative, for
non-negative layer densities and a non-decreasing first grid spacing. -/
lemma makhov_unnorm_nonneg (z_grid : List ℝ) (E w : ℝ)
    (layers : List PyLayer) (model : String)
    (hl : ∀ l ∈ layers, 0 ≤ l.density)
    (hz : z_grid.getD 0 0 ≤ z_grid.getD 1 0) :
    ∀ y ∈ makhov_unnorm z_grid E layers model w, 0 ≤ y := by
  intro y hy
  simp only [makhov_unnorm] at hy
  have hdens := field_map_nonneg PyLayer.density z_grid layers model w hl
  have hdz : (0:ℝ) ≤ z_grid.getD 1 0 - z_grid.getD 0 0 := by linarith
  have hxi : ∀ t ∈ (cumsum ((field_map PyLayer.density z_grid layers model
      w).map (fun d => d * (z_grid.getD 1 0 - z_grid.getD 0 0)))).map
        (fun t => t * 0.1), 0 ≤ t := by
    intro t ht
    obtain ⟨t0, ht0, rfl⟩ := List.mem_map.mp ht
    have h0 : 0 ≤ t0 := by
      refine cumsumFrom_nonneg _ 0 ?_ le_rfl t0 ht0
      intro x hx
      obtain ⟨d, hd, rfl⟩ := List.mem_map.mp hx
      exact mul_nonneg (hdens d hd) hdz
    positivity
  have hxi0 : (0:ℝ) < 4.0 * (max E 0.01) ^ (1.6:ℝ) / 0.886 := by
    have hE : (0:ℝ) < max E 0.01 :=
      lt_of_lt_of_le (by norm_num) (le_max_right _ _)
    have := Real.rpow_pos_of_pos hE (1.6:ℝ)
    positivity
  refine zipWith_mul_nonneg _ _ ?_ hdens y hy
  intro a ha
  obtain ⟨t, ht, rfl⟩ := List.mem_map.mp ha
  have h0t : 0 ≤ t := hxi t ht
  have h1 : (0:ℝ) ≤ 2.0 * t ^ ((2.0:ℝ) - 1) :=
    mul_nonneg (by norm_num) (Real.rpow_nonneg h0t ((2.0:ℝ) - 1))
  have h2 : (0:ℝ) < (4.0 * (max E 0.01) ^ (1.6:ℝ) / 0.886) ^ (2.0:ℝ) :=
    Real.rpow_pos_of_pos hxi0 _
  exact mul_nonneg (div_nonneg h1 h2.le) (Real.exp_pos _).le

/-- Every entry of the clamped annihilation profile is non-negative. -/
lemma annihilation_unnorm_nonneg (z_grid p_z : List ℝ)
    (layers : List PyLayer) (model : String) (w : ℝ) :
    ∀ y ∈ annihilation_unnorm z_grid p_z layers model w, 0 ≤ y := by
  intro y hy
  simp only [annihilation_unnorm] at hy
  obtain ⟨t, _, rfl⟩ := List.mem_map.mp hy
  exact le_max_right t 0

/-- C4: every entry of `makhov_profile` and every entry of
`calculate_annihilation_profile` is non-negative, for any stack of layers
with positive fields, any grid whose first spacing is non-decreasing, any
energy, width and input profile. -/
theorem profiles_nonneg :
    ∀ (z_grid : List ℝ) (E w : ℝ) (layers : List PyLayer) (model : String)
      (p_in : List ℝ),
      (∀ l ∈ layers, 0 < l.thickness ∧ 0 < l.density ∧ 0 < l.L_diff) →
      z_grid.getD 0 0 ≤ z_grid.getD 1 0 →
      (∀ y ∈ makhov_profile z_grid E layers model w, 0 ≤ y) ∧
      (∀ y ∈ calculate_annihilation_profile z_grid p_in layers model w,
        0 ≤ y) := by
  intro z_grid E w layers model p_in hl hz
  have hdens : ∀ l ∈ layers, 0 ≤ l.density := fun l h => (hl l h).2.1.le
  have hm := makhov_unnorm_nonneg z_grid E w layers model hdens hz
  constructor
  · intro y hy
    simp only [makhov_profile] at hy
    by_cases hI : 0 < trapezoid (makhov_unnorm z_grid E layers model w) z_grid
    · rw [if_pos hI] at hy
      obtain ⟨x, hx, rfl⟩ := List.mem_map.mp hy
      exact div_nonneg (hm x hx) hI.le
    · rw [if_neg hI] at hy
      exact hm y hy
  · intro y hy
    have ha := annihilation_unnorm_nonneg z_grid p_in layers model w
    simp only [calculate_annihilation_profile] at hy
    by_cases hI : 0 < trapezoid (annihilation_unnorm z_grid p_in layers
        model w) z_grid
    · rw [if_pos hI] at hy
      obtain ⟨x, hx, rfl⟩ := List.mem_map.mp hy
      exact div_nonneg (ha x hx) hI.le
    · rw [if_neg hI] at hy
      exact ha y hy

/-- Witness for C4 on a concrete one-layer stack, grid, energy and input
profile. -/
theorem profiles_nonneg_witness :
    (∀ y ∈ makhov_profile [0, 1] 1 [⟨2, 1, 1⟩] "sharp" 10, 0 ≤ y) ∧
    (∀ y ∈ calculate_annihilation_profile [0, 1] [0, 0] [⟨2, 1, 1⟩]
      "sharp" 10, 0 ≤ y) :=
  profiles_nonneg [0, 1] 1 10 [⟨2, 1, 1⟩] "sharp" [0, 0]
    (by
      intro l hl
      rcases List.mem_cons.mp hl with h | h
      · subst h; norm_num
      · exact absurd h (List.not_mem_nil l))
    (by norm_num)

/-- Cumulative interface position of layer `i` in a stack: the running
`curr_z` of the source loop when layer `i` is processed. -/
noncomputable def layer_start (layers : List PyLayer) (i : ℕ) : ℝ :=
  ((layers.take i).map PyLayer.thickness).sum

/-- The claim's "depth within [cumulative start, cumulative start +
thickness] of layer i": exactly the source's mask
`(z >= curr_z) & (z <= curr_z + thickness)` for layer `i`. -/
noncomputable def in_layer (layers : List PyLayer) (i : ℕ) (z : ℝ) : Prop :=
  layer_start layers i ≤ z ∧
    z ≤ layer_start layers i + (layers.getD i default).thickness

lemma layer_start_zero (layers : List PyLayer) : layer_start layers 0 = 0 := by
  simp [layer_start]

lemma layer_start_cons (l : PyLayer) (layers : List PyLayer) (i : ℕ) :
    layer_start (l :: layers) (i + 1) =
      l.thickness + layer_start layers i := by
  simp [layer_start]

/-- With positive thicknesses the layer starts are strictly increasing. -/
lemma layer_start_lt (layers : List PyLayer) (i j : ℕ)
    (hpos : ∀ l ∈ layers, 0 < l.thickness) (hij : i < j)
    (hj : j ≤ layers.length) : layer_start layers i < layer_start layers j := by
  have key : ∀ k, layer_start layers (i + k) = layer_start layers i +
      (((layers.drop i).take k).map PyLayer.thickness).sum := by
    intro k
    simp only [layer_start]
    rw [List.take_add, List.map_append, List.sum_append]
  have h1 := key (j - i)
  rw [show i + (j - i) = j from by omega] at h1
  have hpos2 : 0 < (((layers.drop i).take (j - i)).map PyLayer.thickness).sum := by
    apply List.sum_pos
    · intro x hx
      obtain ⟨l, hl, rfl⟩ := List.mem_map.mp hx
      exact hpos l (List.drop_subset i layers (List.take_subset _ _ hl))
    · have hlen : 0 < (((layers.drop i).take (j - i)).map
          PyLayer.thickness).length := by
        simp only [List.length_map, List.length_take, List.length_drop]
        omega
      exact List.ne_nil_of_length_pos hlen
  rw [h1]
  linarith

/-- When no layer interval (offset by `cur`) contains `z`, the step loop
leaves the accumulated value unchanged. -/
lemma sharp_layer_value_no_hit (f : PyLayer → ℝ) :
    ∀ (layers : List PyLayer) (cur acc z : ℝ),
      (∀ i, i < layers.length →
        ¬(cur + layer_start layers i ≤ z ∧
          z ≤ cur + layer_start layers i +
            (layers.getD i default).thickness)) →
      sharp_layer_value f layers cur acc z = acc := by
  intro layers
  induction layers with
  | nil => intro cur acc z _; rfl
  | cons l rest ih =>
      intro cur acc z h
      have h0 := h 0 (by simp)
      rw [layer_start_zero] at h0
      simp only [List.getD_cons_zero, add_zero] at h0
      show sharp_layer_value f rest (cur + l.thickness)
        (if cur ≤ z ∧ z ≤ cur + l.thickness then f l else acc) z = acc
      rw [if_neg h0]
      apply ih
      intro i hi hcontra
      refine h (i + 1) (by simp only [List.length_cons]; omega) ?_
      rw [layer_start_cons, List.getD_cons_succ]
      obtain ⟨h1, h2⟩ := hcontra
      exact ⟨by linarith, by linarith⟩

/-- When layer `i`'s interval contains `z` and no later layer's interval
does, the step loop returns layer `i`'s value: the writes happen in
stack order, so the hit of the last containing layer wins. -/
lemma sharp_layer_value_hit (f : PyLayer → ℝ) :
    ∀ (layers : List PyLayer) (cur acc z : ℝ) (i : ℕ),
      i < layers.length →
      (cur + layer_start layers i ≤ z ∧
        z ≤ cur + layer_start layers i +
          (layers.getD i default).thickness) →
      (∀ j, i < j → j < layers.length →
        ¬(cur + layer_start layers j ≤ z ∧
          z ≤ cur + layer_start layers j +
            (layers.getD j default).thickness)) →
      sharp_layer_value f layers cur acc z = f (layers.getD i default) := by
  intro layers
  induction layers with
  | nil => intro cur acc z i hi; simp at hi
  | cons l rest ih =>
      intro cur acc z i hi hhit hlater
      cases i with
      | zero =>
          rw [layer_start_zero] at hhit
          simp only [List.getD_cons_zero, add_zero] at hhit
          simp only [List.getD_cons_zero]
          show sharp_layer_value f rest (cur + l.thickness)
            (if cur ≤ z ∧ z ≤ cur + l.thickness then f l else acc) z = f l
          rw [if_pos hhit]
          apply sharp_layer_value_no_hit
          intro k hk hcontra
          refine hlater (k + 1) (Nat.succ_pos k)
            (by simp only [List.length_cons]; omega) ?_
          rw [layer_start_cons, List.getD_cons_succ]
          obtain ⟨h1, h2⟩ := hcontra
          exact ⟨by linarith, by linarith⟩
      | succ k =>
          have hk : k < rest.length := by
            simp only [List.length_cons] at hi; omega
          simp only [List.getD_cons_succ]
          show sharp_layer_value f rest (cur + l.thickness)
            (if cur ≤ z ∧ z ≤ cur + l.thickness then f l else acc) z =
              f (rest.getD k default)
          apply ih (cur + l.thickness) _ z k hk
          · rw [layer_start_cons, List.getD_cons_succ] at hhit
            obtain ⟨h1, h2⟩ := hhit
            exact ⟨by linarith, by linarith⟩
          · intro j hj hjlen hcontra
            refine hlater (j + 1) (by omega)
              (by simp only [List.length_cons]; omega) ?_
            rw [layer_start_cons, List.getD_cons_succ]
            obtain ⟨h1, h2⟩ := hcontra
            exact ⟨by linarith, by linarith⟩

/-- C8: in the sharp branch the density at a grid point is the density of
the layer whose closed interval contains it if no later layer's interval
does (first conjunct: writes are processed in stack order, layer `i`'s
assignment survives exactly when no later mask also covers the point);
and at the exact interface coordinate between layers `i` and `i+1`, which
both masks cover, the later layer's density wins (second conjunct). -/
theorem sharp_density_last_write_wins :
    (∀ (layers : List PyLayer) (z : ℝ) (i : ℕ),
      i < layers.length → in_layer layers i z →
      (∀ j, i < j → j < layers.length → ¬ in_layer layers j z) →
      sharp_layer_value PyLayer.density layers 0 0 z =
        (layers.getD i default).density) ∧
    (∀ (layers : List PyLayer) (i : ℕ),
      i + 1 < layers.length → (∀ l ∈ layers, 0 < l.thickness) →
      sharp_layer_value PyLayer.density layers 0 0
        (layer_start layers (i + 1)) =
        (layers.getD (i + 1) default).density) := by
  have main : ∀ (layers : List PyLayer) (z : ℝ) (i : ℕ),
      i < layers.length → in_layer layers i z →
      (∀ j, i < j → j < layers.length → ¬ in_layer layers j z) →
      sharp_layer_value PyLayer.density layers 0 0 z =
        (layers.getD i default).density := by
    intro layers z i hi hin hlater
    simp only [in_layer] at hin
    apply sharp_layer_value_hit PyLayer.density layers 0 0 z i hi
    · exact ⟨by linarith [hin.1], by linarith [hin.2]⟩
    · intro j hj hjlen hcontra
      refine hlater j hj hjlen ?_
      simp only [in_layer]
      obtain ⟨h1, h2⟩ := hcontra
      exact ⟨by linarith, by linarith⟩
  constructor
  · exact main
  · intro layers i hi1 hpos
    apply main layers _ (i + 1) hi1
    · simp only [in_layer]
      have ht : 0 < (layers.getD (i + 1) default).thickness := by
        rw [List.getD_eq_getElem layers default hi1]
        exact hpos _ (List.getElem_mem hi1)
      exact ⟨le_refl _, by linarith⟩
    · intro j hj hjlen
      simp only [in_layer]
      intro hcontra
      have hlt : layer_start layers (i + 1) < layer_start layers j :=
        layer_start_lt layers (i + 1) j hpos hj (le_of_lt hjlen)
      linarith [hcontra.1]

/-- Witness for C8: a two-layer stack with thicknesses 1 and densities 5
and 7; the point 0.5 inside layer 0 gets density 5, and the exact
interface point (depth 1) gets the later layer's density 7. -/
theorem sharp_density_last_write_wins_witness :
    sharp_layer_value PyLayer.density [⟨1, 5, 1⟩, ⟨1, 7, 1⟩] 0 0 0.5 =
      (([⟨1, 5, 1⟩, ⟨1, 7, 1⟩] : List PyLayer).getD 0 default).density ∧
    sharp_layer_value PyLayer.density [⟨1, 5, 1⟩, ⟨1, 7, 1⟩] 0 0
        (layer_start [⟨1, 5, 1⟩, ⟨1, 7, 1⟩] 1) =
      (([⟨1, 5, 1⟩, ⟨1, 7, 1⟩] : List PyLayer).getD 1 default).density :=
  ⟨sharp_density_last_write_wins.1 [⟨1, 5, 1⟩, ⟨1, 7, 1⟩] 0.5 0 (by simp)
      (by norm_num [in_layer, layer_start])
      (by
        intro j hj0 hj2
        have hj : j = 1 := by
          simp only [List.length_cons, List.length_nil] at hj2; omega
        subst hj
        norm_num [in_layer, layer_start]),
   sharp_density_last_write_wins.2 [⟨1, 5, 1⟩, ⟨1, 7, 1⟩] 0 (by simp)
      (by
        intro l hl
        rcases List.mem_cons.mp hl with h | h
        · subst h; norm_num
        · rcases List.mem_cons.mp h with h2 | h2
          · subst h2; norm_num
          · exact absurd h2 (List.not_mem_nil l))⟩

/-- Dividing every sample by a constant divides the trapezoidal integral
by that constant. -/
lemma trapezoid_map_div (c : ℝ) :
    ∀ (ys xs : List ℝ),
      trapezoid (ys.map (fun y => y / c)) xs = trapezoid ys xs / c := by
  intro ys
  induction ys with
  | nil =>
      intro xs
      show (0:ℝ) = 0 / c
      rw [zero_div]
  | cons y0 tl ih =>
      intro xs
      cases tl with
      | nil =>
          show (0:ℝ) = 0 / c
          rw [zero_div]
      | cons y1 tl2 =>
          cases xs with
          | nil =>
              show (0:ℝ) = 0 / c
              rw [zero_div]
          | cons x0 xs2 =>
              cases xs2 with
              | nil =>
                  show (0:ℝ) = 0 / c
                  rw [zero_div]
              | cons x1 xs3 =>
                  have ihh := ih (x1 :: xs3)
                  show (x1 - x0) * (y0 / c + y1 / c) / 2 +
                      trapezoid ((y1 :: tl2).map (fun y => y / c)) (x1 :: xs3)
                    = ((x1 - x0) * (y0 + y1) / 2 +
                      trapezoid (y1 :: tl2) (x1 :: xs3)) / c
                  rw [ihh]
                  ring

/-- C3: whenever the pre-normalization trapezoidal integral of the
implantation profile (respectively, of the clamped annihilation profile
computed from the normalized implantation profile, as in the forward
pipeline) is strictly positive, the trapezoidal integral of the returned
normalized profile equals 1 exactly — in particular within the claimed
1e-6 absolute tolerance — for any valid layer stack, valid grid and
positive energy. -/
theorem profiles_normalized :
    ∀ (z_grid : List ℝ) (E w : ℝ) (layers : List PyLayer) (model : String),
      (∀ l ∈ layers, 0 < l.thickness ∧ 0 < l.density ∧ 0 < l.L_diff) →
      2 ≤ z_grid.length → List.Chain' (· < ·) z_grid → 0 < E →
      0 < trapezoid (makhov_unnorm z_grid E layers model w) z_grid →
      0 < trapezoid (annihilation_unnorm z_grid
            (makhov_profile z_grid E layers model w) layers model w) z_grid →
      |trapezoid (makhov_profile z_grid E layers model w) z_grid - 1|
          ≤ 1e-6 ∧
      |trapezoid (calculate_annihilation_profile z_grid
          (makhov_profile z_grid E layers model w) layers model w) z_grid - 1|
          ≤ 1e-6 := by
  intro z_grid E w layers model _ _ _ _ hP hC
  constructor
  · have h1 : trapezoid (makhov_profile z_grid E layers model w) z_grid = 1 := by
      simp only [makhov_profile]
      rw [if_pos hP, trapezoid_map_div]
      exact div_self (ne_of_gt hP)
    rw [h1]
    norm_num
  · have h1 : trapezoid (calculate_annihilation_profile z_grid
        (makhov_profile z_grid E layers model w) layers model w) z_grid = 1 := by
      simp only [calculate_annihilation_profile]
      rw [if_pos hC, trapezoid_map_div]
      exact div_self (ne_of_gt hC)
    rw [h1]
    norm_num

/-- Strict version of `cumsumFrom_nonneg`. -/
lemma cumsumFrom_pos :
    ∀ (l : List ℝ) (acc : ℝ), (∀ x ∈ l, 0 < x) → 0 ≤ acc →
      ∀ y ∈ cumsumFrom acc l, 0 < y := by
  intro l
  induction l with
  | nil => intro acc _ _ y hy; simp [cumsumFrom] at hy
  | cons x xs ih =>
      intro acc hl hacc y hy
      have hx : 0 < x := hl x (List.mem_cons_self x xs)
      rcases List.mem_cons.mp hy with h | h
      · subst h; linarith
      · exact ih (acc + x) (fun t ht => hl t (List.mem_cons_of_mem _ ht))
          (by linarith) y h

/-- Strict version of `zipWith_mul_nonneg`. -/
lemma zipWith_mul_pos :
    ∀ (A B : List ℝ), (∀ a ∈ A, 0 < a) → (∀ b ∈ B, 0 < b) →
      ∀ y ∈ List.zipWith (fun a b => a * b) A B, 0 < y := by
  intro A
  induction A with
  | nil => intro B _ _ y hy; simp at hy
  | cons a as ih =>
      intro B hA hB y hy
      cases B with
      | nil => simp at hy
      | cons b bs =>
          rcases List.mem_cons.mp hy with h | h
          · subst h
            exact mul_pos (hA a (List.mem_cons_self a as))
              (hB b (List.mem_cons_self b bs))
          · exact ih bs (fun t ht => hA t (List.mem_cons_of_mem _ ht))
              (fun t ht => hB t (List.mem_cons_of_mem _ ht)) y h

/-- Every entry of the un-normalized Makhov profile is strictly positive
when the density map is pointwise positive and the first grid spacing is
positive. -/
lemma makhov_unnorm_pos (z_grid : List ℝ) (E : ℝ) (layers : List PyLayer)
    (model : String) (w : ℝ)
    (hd : ∀ y ∈ field_map PyLayer.density z_grid layers model w, 0 < y)
    (hz : z_grid.getD 0 0 < z_grid.getD 1 0) :
    ∀ y ∈ makhov_unnorm z_grid E layers model w, 0 < y := by
  intro y hy
  simp only [makhov_unnorm] at hy
  have hdz : (0:ℝ) < z_grid.getD 1 0 - z_grid.getD 0 0 := by linarith
  have hxi0 : (0:ℝ) < 4.0 * (max E 0.01) ^ (1.6:ℝ) / 0.886 := by
    have hE : (0:ℝ) < max E 0.01 :=
      lt_of_lt_of_le (by norm_num) (le_max_right _ _)
    have h2 := Real.rpow_pos_of_pos hE (1.6:ℝ)
    positivity
  refine zipWith_mul_pos _ _ ?_ hd y hy
  intro t ht
  obtain ⟨t0, ht0, rfl⟩ := List.mem_map.mp ht
  obtain ⟨t1, ht1, rfl⟩ := List.mem_map.mp ht0
  have h1 : 0 < t1 := by
    refine cumsumFrom_pos _ 0 ?_ le_rfl t1 ht1
    intro x hx
    obtain ⟨d, hdm, rfl⟩ := List.mem_map.mp hx
    exact mul_pos (hd d hdm) hdz
  have ht01 : (0:ℝ) < t1 * 0.1 := by positivity
  exact mul_pos (div_pos (mul_pos (by norm_num)
      (Real.rpow_pos_of_pos ht01 _)) (Real.rpow_pos_of_pos hxi0 _))
    (Real.exp_pos _)

/-- A real list of length two is literally a pair. -/
lemma exists_pair_of_length_two (l : List ℝ) (h : l.length = 2) :
    ∃ a b, l = [a, b] := by
  rcases l with _ | ⟨a, l⟩
  · simp at h
  rcases l with _ | ⟨b, l⟩
  · simp at h
  rcases l with _ | ⟨c, l⟩
  · exact ⟨a, b, rfl⟩
  · simp only [List.length_cons] at h
    omega

/-- The Thomas solver on a 2x2 tridiagonal system, evaluated. -/
lemma thomas_two (a1 b0 b1 c0 d0 d1 : ℝ) :
    thomas [a1] [b0, b1] [c0] [d0, d1] =
      [d0 / b0 - c0 / b0 * ((d1 - a1 * (d0 / b0)) / (b1 - a1 * (c0 / b0))),
       (d1 - a1 * (d0 / b0)) / (b1 - a1 * (c0 / b0))] := rfl

/-- On a two-point grid, the clamped solution of the assembled system
against a positive right-hand side has positive trapezoidal integral:
the first solution component is positive because the matrix is strictly
diagonally dominant with negative diagonal. -/
lemma two_point_clamped_pos (f0 f1 p0 p1 z0 z1 : ℝ)
    (hf0 : 0 ≤ f0) (hf1 : 0 ≤ f1) (hz : z0 < z1)
    (hp0 : 0 < p0) (hp1 : 0 < p1) :
    0 < trapezoid
      ((thomas [f1] [-2 * f0 - 1, -2 * f1 - 1] [f0] [-p0, -p1]).map
        (fun x => max x 0)) [z0, z1] := by
  rw [thomas_two]
  have hb0 : (-2 * f0 - 1 : ℝ) < 0 := by linarith
  have hq : f0 / (-2 * f0 - 1) ≤ 0 :=
    div_nonpos_of_nonneg_of_nonpos hf0 hb0.le
  have hb0ne : (-2 * f0 - 1 : ℝ) ≠ 0 := ne_of_lt hb0
  have hcancel : f0 / (-2 * f0 - 1) * (-2 * f0 - 1) = f0 :=
    div_mul_cancel₀ f0 hb0ne
  have hmb : ((-2 * f1 - 1) - f1 * (f0 / (-2 * f0 - 1))) * (-2 * f0 - 1) =
      3 * f0 * f1 + 2 * f0 + 2 * f1 + 1 := by
    have expand : ((-2 * f1 - 1) - f1 * (f0 / (-2 * f0 - 1))) * (-2 * f0 - 1)
        = (-2 * f1 - 1) * (-2 * f0 - 1) -
          f1 * (f0 / (-2 * f0 - 1) * (-2 * f0 - 1)) := by ring
    rw [expand, hcancel]
    ring
  have hm : (-2 * f1 - 1) - f1 * (f0 / (-2 * f0 - 1)) < 0 := by
    by_contra hcon
    push_neg at hcon
    nlinarith [mul_nonpos_of_nonneg_of_nonpos hcon hb0.le]
  have hdp0 : 0 < -p0 / (-2 * f0 - 1) := by
    apply div_pos_of_neg_of_neg (by linarith) hb0
  have hx1 : 0 < (-p1 - f1 * (-p0 / (-2 * f0 - 1))) /
      ((-2 * f1 - 1) - f1 * (f0 / (-2 * f0 - 1))) := by
    apply div_pos_of_neg_of_neg _ hm
    have : 0 ≤ f1 * (-p0 / (-2 * f0 - 1)) := mul_nonneg hf1 hdp0.le
    linarith
  have hx0 : 0 < -p0 / (-2 * f0 - 1) - f0 / (-2 * f0 - 1) *
      ((-p1 - f1 * (-p0 / (-2 * f0 - 1))) /
        ((-2 * f1 - 1) - f1 * (f0 / (-2 * f0 - 1)))) := by
    have := mul_nonpos_of_nonpos_of_nonneg hq hx1.le
    linarith
  simp only [List.map_cons, List.map_nil]
  show 0 < (z1 - z0) * (max _ 0 + max _ 0) / 2 + trapezoid [max _ 0] [z1]
  have hM0 := le_max_left (-p0 / (-2 * f0 - 1) - f0 / (-2 * f0 - 1) *
      ((-p1 - f1 * (-p0 / (-2 * f0 - 1))) /
        ((-2 * f1 - 1) - f1 * (f0 / (-2 * f0 - 1))))) 0
  have hM1 := le_max_right ((-p1 - f1 * (-p0 / (-2 * f0 - 1))) /
      ((-2 * f1 - 1) - f1 * (f0 / (-2 * f0 - 1)))) 0
  have htr : trapezoid [max ((-p1 - f1 * (-p0 / (-2 * f0 - 1))) /
      ((-2 * f1 - 1) - f1 * (f0 / (-2 * f0 - 1)))) 0] [z1] = 0 := rfl
  rw [htr]
  have hs : 0 < max (-p0 / (-2 * f0 - 1) - f0 / (-2 * f0 - 1) *
      ((-p1 - f1 * (-p0 / (-2 * f0 - 1))) /
        ((-2 * f1 - 1) - f1 * (f0 / (-2 * f0 - 1))))) 0 +
      max ((-p1 - f1 * (-p0 / (-2 * f0 - 1))) /
        ((-2 * f1 - 1) - f1 * (f0 / (-2 * f0 - 1)))) 0 := by
    linarith
  have hzz : (0:ℝ) < z1 - z0 := by linarith
  have := mul_pos hzz hs
  linarith

/-- A field map over a two-point grid is a pair. -/
lemma field_map_pair (f : PyLayer → ℝ) (z0 z1 : ℝ) (layers : List PyLayer)
    (model : String) (w : ℝ) :
    ∃ a b, field_map f [z0, z1] layers model w = [a, b] := by
  unfold field_map
  split
  · exact ⟨_, _, rfl⟩
  · exact ⟨_, _, rfl⟩

/-- On a two-point grid with a pointwise-positive input profile, the
pre-normalization integral of the clamped annihilation profile is
strictly positive, whatever the layer stack and model. -/
lemma annihilation_unnorm_two_pos (z0 z1 p0 p1 : ℝ) (layers : List PyLayer)
    (model : String) (w : ℝ) (hz : z0 < z1) (hp0 : 0 < p0) (hp1 : 0 < p1) :
    0 < trapezoid (annihilation_unnorm [z0, z1] [p0, p1] layers model w)
      [z0, z1] := by
  obtain ⟨L0, L1, hL⟩ := field_map_pair PyLayer.L_diff z0 z1 layers model w
  have key := two_point_clamped_pos (L0 ^ 2 / (z1 - z0) ^ 2)
    (L1 ^ 2 / (z1 - z0) ^ 2) p0 p1 z0 z1 (by positivity) (by positivity)
    hz hp0 hp1
  simp only [annihilation_unnorm, hL, List.map_cons, List.map_nil,
    List.getD_cons_zero, List.getD_cons_succ, List.drop_succ_cons,
    List.drop_zero, List.dropLast_cons₂, List.dropLast_single]
  exact key

/-- The density map of the witness configuration: one layer of thickness
2 and density 1 on the grid [0, 1]. -/
lemma field_map_density_W :
    field_map PyLayer.density [0, 1] [⟨2, 1, 1⟩] "sharp" 10 = [1, 1] := by
  norm_num [field_map, sharp_layer_value]

/-- All density-map entries of the witness configuration are positive. -/
lemma field_map_density_W_pos :
    ∀ y ∈ field_map PyLayer.density [0, 1] [⟨2, 1, 1⟩] "sharp" 10, 0 < y := by
  rw [field_map_density_W]
  intro y hy
  rcases List.mem_cons.mp hy with h | h
  · subst h; norm_num
  · rcases List.mem_cons.mp h with h2 | h2
    · subst h2; norm_num
    · exact absurd h2 (List.not_mem_nil y)

/-- The witness Makhov profile: the un-normalized profile is a positive
pair, its integral is positive, and the normalized profile is a positive
pair. -/
lemma makhov_W :
    0 < trapezoid (makhov_unnorm [0, 1] 1 [⟨2, 1, 1⟩] "sharp" 10) [0, 1] ∧
    ∃ r0 r1, makhov_profile [0, 1] 1 [⟨2, 1, 1⟩] "sharp" 10 = [r0, r1] ∧
      0 < r0 ∧ 0 < r1 := by
  have hpos := makhov_unnorm_pos [0, 1] 1 [⟨2, 1, 1⟩] "sharp" 10
    field_map_density_W_pos (by norm_num)
  have hlen : (makhov_unnorm [0, 1] 1 [⟨2, 1, 1⟩] "sharp" 10).length = 2 := by
    simp [makhov_unnorm, field_map_density_W, cumsum, cumsumFrom]
  obtain ⟨q0, q1, hq⟩ :=
    exists_pair_of_length_two (makhov_unnorm [0, 1] 1 [⟨2, 1, 1⟩] "sharp" 10)
      hlen
  have hq0 : 0 < q0 := hpos q0 (by rw [hq]; exact List.mem_cons_self _ _)
  have hq1 : 0 < q1 := hpos q1
    (by rw [hq]; exact List.mem_cons_of_mem _ (List.mem_cons_self _ _))
  have hI : 0 < trapezoid (makhov_unnorm [0, 1] 1 [⟨2, 1, 1⟩] "sharp" 10)
      [0, 1] := by
    rw [hq]
    show 0 < ((1:ℝ) - 0) * (q0 + q1) / 2 + trapezoid [q1] [1]
    have h0 : trapezoid [q1] [1] = 0 := rfl
    rw [h0]
    nlinarith
  refine ⟨hI, q0 / trapezoid (makhov_unnorm [0, 1] 1 [⟨2, 1, 1⟩] "sharp" 10)
      [0, 1], q1 / trapezoid (makhov_unnorm [0, 1] 1 [⟨2, 1, 1⟩] "sharp" 10)
      [0, 1], ?_, div_pos hq0 hI, div_pos hq1 hI⟩
  simp only [makhov_profile]
  rw [if_pos hI]
  rw [hq]
  rfl

/-- Witness for C3 on the concrete one-layer configuration: grid [0, 1],
energy 1 keV, a single layer of thickness 2, density 1 and diffusion
length 1, sharp model. -/
theorem profiles_normalized_witness :
    |trapezoid (makhov_profile [0, 1] 1 [⟨2, 1, 1⟩] "sharp" 10) [0, 1] - 1|
        ≤ 1e-6 ∧
    |trapezoid (calculate_annihilation_profile [0, 1]
        (makhov_profile [0, 1] 1 [⟨2, 1, 1⟩] "sharp" 10) [⟨2, 1, 1⟩]
        "sharp" 10) [0, 1] - 1| ≤ 1e-6 :=
  profiles_normalized [0, 1] 1 10 [⟨2, 1, 1⟩] "sharp"
    (by
      intro l hl
      rcases List.mem_cons.mp hl with h | h
      · subst h; refine ⟨by norm_num, by norm_num, by norm_num⟩
      · exact absurd h (List.not_mem_nil l))
    (by simp)
    (by norm_num [List.chain'_cons])
    (by norm_num)
    makhov_W.1
    (by
      obtain ⟨r0, r1, hM, h0, h1⟩ := makhov_W.2
      rw [hM]
      exact annihilation_unnorm_two_pos 0 1 r0 r1 [⟨2, 1, 1⟩] "sharp" 10
        (by norm_num) h0 h1)
